import Mathlib

/-!
Verification of the loop-layer model, scheduler and grid conversion of the
makeloops sequencer.  Tick times are embedded as integers, seconds and
velocities as rationals; the tick-to-second conversion of the audio library
is a positive scale factor `spt` (seconds per tick).
-/

/-- Kind of a MIDI event, mirroring the `'noteOn' | 'noteOff'` union. -/
inductive EvKind where
  | noteOn
  | noteOff
deriving DecidableEq, Repr

/-- MidiEvent from `src/types`: kind, note name, velocity, tick time. -/
structure MidiEvent where
  type : EvKind
  note : String
  velocity : Rat
  time : Int
deriving DecidableEq, Repr

/-- LoopLayer from `src/types` (fields used by the store operations). -/
structure LoopLayer where
  id : String
  name : String
  events : List MidiEvent
  duration : Int
  cropStart : Int
  cropEnd : Int
  startPadding : Int
  endPadding : Int
  instrumentId : String
  volume : Rat
  muted : Bool
  solo : Bool
deriving DecidableEq, Repr

/-- getEffectiveDuration from looperStore: `cropEnd - cropStart`. -/
def getEffectiveDuration (l : LoopLayer) : Int :=
  l.cropEnd - l.cropStart

/-- shrinkFromStart from instrumentStore (per-layer action): no-op when
`ticks <= 0` or `startPadding < ticks`; otherwise moves `cropStart` forward
and pays for it out of `startPadding`. -/
def shrinkFromStart (ticks : Int) (l : LoopLayer) : LoopLayer :=
  if ticks ≤ 0 then l
  else if l.startPadding < ticks then l
  else { l with cropStart := l.cropStart + ticks, startPadding := l.startPadding - ticks }

/-- extendFromStart from instrumentStore (per-layer action): no-op when
`ticks <= 0`; otherwise shifts every event by `ticks` and grows `duration`,
`cropEnd` and `startPadding` by `ticks`. -/
def extendFromStart (ticks : Int) (l : LoopLayer) : LoopLayer :=
  if ticks ≤ 0 then l
  else { l with
    events := l.events.map (fun e => { e with time := e.time + ticks }),
    duration := l.duration + ticks,
    cropEnd := l.cropEnd + ticks,
    startPadding := l.startPadding + ticks }

/-- setCropPoints from looperStore: clamps `start` to `[0, duration]` and
`end` to `[clampedStart, duration]`. -/
def setCropPoints (start endArg : Int) (l : LoopLayer) : LoopLayer :=
  let clampedStart := max 0 (min start l.duration)
  let clampedEnd := max clampedStart (min endArg l.duration)
  { l with cropStart := clampedStart, cropEnd := clampedEnd }

/-- timelineDuration computed over the layer list (instrumentStore version):
0 when empty, otherwise `Math.max` over all effective durations. -/
def timelineDuration (layers : List LoopLayer) : Int :=
  match layers with
  | [] => 0
  | l :: ls => ls.foldl (fun acc x => max acc (getEffectiveDuration x)) (getEffectiveDuration l)

/-- timelineDuration as exposed by looperStore: pinned to
`frozenTimelineDuration` while a freeze is active, otherwise the computed
maximum. -/
def timelineDurationDisplayed (frozen : Option Int) (layers : List LoopLayer) : Int :=
  match frozen with
  | some v => v
  | none => timelineDuration layers

/-- Sample melodic event used by concrete scenarios. -/
def evOn (n : String) (t : Int) : MidiEvent :=
  ⟨EvKind.noteOn, n, 1, t⟩

/-- Sample noteOff event used by concrete scenarios. -/
def evOff (n : String) (t : Int) : MidiEvent :=
  ⟨EvKind.noteOff, n, 0, t⟩

/-- Layer of the spec scenario: duration 1920, crop `[0, 1920)`, no padding. -/
def scenarioLayer : LoopLayer :=
  { id := "layer-1", name := "Piano 1",
    events := [evOn "C4" 0, evOff "C4" 400],
    duration := 1920, cropStart := 0, cropEnd := 1920,
    startPadding := 0, endPadding := 0,
    instrumentId := "piano", volume := 0, muted := false, solo := false }

/-- C4. After `extendFromStart t` with `t > 0`: every event time grows by
exactly `t`, `cropStart` is unchanged, `cropEnd`, `duration` and
`startPadding` each grow by exactly `t`, so the effective duration grows
by `t`; all other fields are untouched. -/
theorem c4_extendFromStart_shifts (l : LoopLayer) (t : Int) (ht : 0 < t) :
    (extendFromStart t l).events = l.events.map (fun e => { e with time := e.time + t }) ∧
    (extendFromStart t l).cropStart = l.cropStart ∧
    (extendFromStart t l).cropEnd = l.cropEnd + t ∧
    (extendFromStart t l).duration = l.duration + t ∧
    (extendFromStart t l).startPadding = l.startPadding + t ∧
    getEffectiveDuration (extendFromStart t l) = getEffectiveDuration l + t := by
  have hnot : ¬ t ≤ 0 := not_le.mpr ht
  simp [extendFromStart, hnot, getEffectiveDuration]
  ring

/-- Witness for C4 at the scenario layer with `t = 480`. -/
theorem c4_witness :
    (0 : Int) < 480 ∧
    ((extendFromStart 480 scenarioLayer).events =
        scenarioLayer.events.map (fun e => { e with time := e.time + 480 }) ∧
      (extendFromStart 480 scenarioLayer).cropStart = scenarioLayer.cropStart ∧
      (extendFromStart 480 scenarioLayer).cropEnd = scenarioLayer.cropEnd + 480 ∧
      (extendFromStart 480 scenarioLayer).duration = scenarioLayer.duration + 480 ∧
      (extendFromStart 480 scenarioLayer).startPadding = scenarioLayer.startPadding + 480 ∧
      getEffectiveDuration (extendFromStart 480 scenarioLayer) =
        getEffectiveDuration scenarioLayer + 480) :=
  ⟨by decide, c4_extendFromStart_shifts scenarioLayer 480 (by decide)⟩

/-- C5. `shrinkFromStart t` is a no-op whenever `t > startPadding`; when
`0 < t ≤ startPadding` it adds `t` to `cropStart`, subtracts `t` from
`startPadding`, and leaves events, duration and `cropEnd` unchanged. -/
theorem c5_shrinkFromStart_spec (l : LoopLayer) (t : Int) :
    (l.startPadding < t → shrinkFromStart t l = l) ∧
    (0 < t → t ≤ l.startPadding →
      shrinkFromStart t l =
        { l with cropStart := l.cropStart + t, startPadding := l.startPadding - t }) := by
  constructor
  · intro hgt
    by_cases h0 : t ≤ 0
    · simp [shrinkFromStart, h0]
    · simp [shrinkFromStart, h0, hgt]
  · intro hpos hle
    have h0 : ¬ t ≤ 0 := not_le.mpr hpos
    have hlt : ¬ l.startPadding < t := not_lt.mpr hle
    simp [shrinkFromStart, h0, hlt]

/-- Witness for C5: the no-op case on the scenario layer (`480 > 0`) and the
mutating case on the extended layer (`0 < 480 ≤ 480`). -/
theorem c5_witness :
    shrinkFromStart 480 scenarioLayer = scenarioLayer ∧
    shrinkFromStart 480 (extendFromStart 480 scenarioLayer) =
      { extendFromStart 480 scenarioLayer with
        cropStart := (extendFromStart 480 scenarioLayer).cropStart + 480,
        startPadding := (extendFromStart 480 scenarioLayer).startPadding - 480 } := by
  refine ⟨(c5_shrinkFromStart_spec scenarioLayer 480).1 (by decide), ?_⟩
  exact (c5_shrinkFromStart_spec (extendFromStart 480 scenarioLayer) 480).2
    (by decide) (by decide)

/-- C6 counterexample. In the spec scenario the round trip
`extendFromStart 480` then `shrinkFromStart 480` does not restore the
original crop window: `cropStart` ends at 480, not 0 (and `cropEnd` at
2400, not 1920). -/
theorem c6_counterexample :
    (shrinkFromStart 480 (extendFromStart 480 scenarioLayer)).cropStart ≠
      scenarioLayer.cropStart ∧
    (shrinkFromStart 480 (extendFromStart 480 scenarioLayer)).cropEnd ≠
      scenarioLayer.cropEnd := by
  decide

/-- C6 amended. `shrinkFromStart 480` on the scenario layer is rejected as a
no-op (startPadding 0 < 480); after `extendFromStart 480` then
`shrinkFromStart 480` the layer has its original `startPadding` and
effective duration back, and every event sits at its original offset from
`cropStart`, but `cropStart`, `cropEnd` and `duration` each end up 480
larger: the crop window is shifted with its contents, not restored. -/
theorem c6_round_trip :
    shrinkFromStart 480 scenarioLayer = scenarioLayer ∧
    (shrinkFromStart 480 (extendFromStart 480 scenarioLayer)).startPadding =
      scenarioLayer.startPadding ∧
    getEffectiveDuration (shrinkFromStart 480 (extendFromStart 480 scenarioLayer)) =
      getEffectiveDuration scenarioLayer ∧
    ((shrinkFromStart 480 (extendFromStart 480 scenarioLayer)).events.map
        (fun e => e.time - (shrinkFromStart 480 (extendFromStart 480 scenarioLayer)).cropStart)) =
      (scenarioLayer.events.map (fun e => e.time - scenarioLayer.cropStart)) ∧
    (shrinkFromStart 480 (extendFromStart 480 scenarioLayer)).cropStart =
      scenarioLayer.cropStart + 480 ∧
    (shrinkFromStart 480 (extendFromStart 480 scenarioLayer)).cropEnd =
      scenarioLayer.cropEnd + 480 ∧
    (shrinkFromStart 480 (extendFromStart 480 scenarioLayer)).duration =
      scenarioLayer.duration + 480 := by
  decide

/-- C2 counterexample. On a layer of duration 100, `setCropPoints 50 50`
leaves `cropStart = cropEnd = 50`, so the effective duration is 0, not
strictly positive. -/
theorem c2_counterexample :
    getEffectiveDuration (setCropPoints 50 50 { scenarioLayer with duration := 100 }) = 0 := by
  decide

/-- C2 amended. For a layer with `duration ≥ 0`, `setCropPoints` clamps the
crop points so that `0 ≤ cropStart ≤ cropEnd ≤ duration`; the effective
duration is therefore nonnegative, but strict positivity is not enforced
(start = end is allowed). -/
theorem c2_setCropPoints_clamps (l : LoopLayer) (s e : Int) (hd : 0 ≤ l.duration) :
    0 ≤ (setCropPoints s e l).cropStart ∧
    (setCropPoints s e l).cropStart ≤ (setCropPoints s e l).cropEnd ∧
    (setCropPoints s e l).cropEnd ≤ l.duration ∧
    0 ≤ getEffectiveDuration (setCropPoints s e l) := by
  simp only [setCropPoints, getEffectiveDuration]
  omega

/-- Witness for C2 at duration 100 with `setCropPoints 50 50`. -/
theorem c2_witness :
    0 ≤ ({ scenarioLayer with duration := 100 } : LoopLayer).duration ∧
    (0 ≤ (setCropPoints 50 50 { scenarioLayer with duration := 100 }).cropStart ∧
      (setCropPoints 50 50 { scenarioLayer with duration := 100 }).cropStart ≤
        (setCropPoints 50 50 { scenarioLayer with duration := 100 }).cropEnd ∧
      (setCropPoints 50 50 { scenarioLayer with duration := 100 }).cropEnd ≤
        ({ scenarioLayer with duration := 100 } : LoopLayer).duration ∧
      0 ≤ getEffectiveDuration (setCropPoints 50 50 { scenarioLayer with duration := 100 })) :=
  ⟨by decide, c2_setCropPoints_clamps { scenarioLayer with duration := 100 } 50 50 (by decide)⟩

/-- Fold with max is at least its initial accumulator. -/
theorem foldl_max_init_le (f : LoopLayer → Int) (ls : List LoopLayer) :
    ∀ acc : Int, acc ≤ ls.foldl (fun a x => max a (f x)) acc := by
  induction ls with
  | nil => intro acc; simp
  | cons x xs ih =>
    intro acc
    exact le_trans (le_max_left acc (f x)) (ih (max acc (f x)))

/-- Fold with max dominates every listed value. -/
theorem foldl_max_mem_le (f : LoopLayer → Int) (ls : List LoopLayer) :
    ∀ acc : Int, ∀ x ∈ ls, f x ≤ ls.foldl (fun a x => max a (f x)) acc := by
  induction ls with
  | nil => intro acc x hx; cases hx
  | cons y ys ih =>
    intro acc x hx
    rcases List.mem_cons.mp hx with h | h
    · subst h
      exact le_trans (le_max_right acc (f x)) (foldl_max_init_le f ys (max acc (f x)))
    · exact ih (max acc (f y)) x h

/-- Fold with max returns the accumulator or one of the listed values. -/
theorem foldl_max_attained (f : LoopLayer → Int) (ls : List LoopLayer) :
    ∀ acc : Int, ls.foldl (fun a x => max a (f x)) acc = acc ∨
      ∃ x ∈ ls, ls.foldl (fun a x => max a (f x)) acc = f x := by
  induction ls with
  | nil => intro acc; exact Or.inl rfl
  | cons y ys ih =>
    intro acc
    rcases ih (max acc (f y)) with h | ⟨x, hx, hfx⟩
    · rcases max_choice acc (f y) with hm | hm
      · exact Or.inl (by rw [List.foldl_cons, h, hm])
      · exact Or.inr ⟨y, List.mem_cons_self _ _, by rw [List.foldl_cons, h, hm]⟩
    · exact Or.inr ⟨x, List.mem_cons_of_mem _ hx, hfx⟩

/-- Fold with max only looks at the folded values. -/
theorem foldl_max_congr (f : LoopLayer → Int) (g : LoopLayer → LoopLayer)
    (hg : ∀ l, f (g l) = f l) (ls : List LoopLayer) :
    ∀ acc : Int, (ls.map g).foldl (fun a x => max a (f x)) acc =
      ls.foldl (fun a x => max a (f x)) acc := by
  induction ls with
  | nil => intro acc; rfl
  | cons y ys ih =>
    intro acc
    simp only [List.map_cons, List.foldl_cons, hg]
    exact ih (max acc (f y))

/-- Concrete layer of effective duration 480. -/
def layer480 : LoopLayer :=
  { scenarioLayer with id := "layer-1", cropStart := 0, cropEnd := 480, duration := 480 }

/-- Concrete layer of effective duration 960. -/
def layer960 : LoopLayer :=
  { scenarioLayer with id := "layer-2", cropStart := 0, cropEnd := 960, duration := 960 }

/-- C7 counterexample. With a freeze active (frozenTimelineDuration = 0) the
store reports timelineDuration 0 for the nonempty collection
`[layer480, layer960]`, not the maximal effective duration 960. -/
theorem c7_counterexample :
    timelineDurationDisplayed (some 0) [layer480, layer960] ≠ 960 ∧
    getEffectiveDuration layer480 = 480 ∧ getEffectiveDuration layer960 = 960 := by
  decide

/-- C7 amended. Whenever the freeze override is inactive, the reported
timelineDuration is the computed maximum; that computed value dominates
every layer's effective duration, is attained by some layer when the
collection is nonempty, and ignores mute flags entirely.  Since it is a
pure function of the layer list, this holds after every add, remove, crop,
extend or shrink.  While a freeze is active the reported value is pinned to
the frozen value instead. -/
theorem c7_timeline_max (layers : List LoopLayer) :
    timelineDurationDisplayed none layers = timelineDuration layers ∧
    (∀ l ∈ layers, getEffectiveDuration l ≤ timelineDuration layers) ∧
    (layers ≠ [] → ∃ l ∈ layers, timelineDuration layers = getEffectiveDuration l) ∧
    (∀ b : Bool, timelineDuration (layers.map (fun l => { l with muted := b })) =
      timelineDuration layers) := by
  refine ⟨rfl, ?_, ?_, ?_⟩
  · intro l hl
    cases layers with
    | nil => cases hl
    | cons y ys =>
      rcases List.mem_cons.mp hl with h | h
      · subst h
        exact foldl_max_init_le getEffectiveDuration ys (getEffectiveDuration l)
      · exact foldl_max_mem_le getEffectiveDuration ys (getEffectiveDuration y) l h
  · intro hne
    cases layers with
    | nil => exact absurd rfl hne
    | cons y ys =>
      rcases foldl_max_attained getEffectiveDuration ys (getEffectiveDuration y) with h | ⟨x, hx, hfx⟩
      · exact ⟨y, List.mem_cons_self _ _, h⟩
      · exact ⟨x, List.mem_cons_of_mem _ hx, hfx⟩
  · intro b
    cases layers with
    | nil => rfl
    | cons y ys =>
      simp only [List.map_cons, timelineDuration]
      exact foldl_max_congr getEffectiveDuration (fun l => { l with muted := b })
        (fun l => rfl) ys (getEffectiveDuration y)

/-- Witness for C7 at the two-layer collection of the spec example; the
maximum is 960. -/
theorem c7_witness :
    (timelineDurationDisplayed none [layer480, layer960] = timelineDuration [layer480, layer960] ∧
      (∀ l ∈ [layer480, layer960],
        getEffectiveDuration l ≤ timelineDuration [layer480, layer960]) ∧
      ([layer480, layer960] ≠ ([] : List LoopLayer) →
        ∃ l ∈ [layer480, layer960],
          timelineDuration [layer480, layer960] = getEffectiveDuration l) ∧
      (∀ b : Bool,
        timelineDuration ([layer480, layer960].map (fun l => { l with muted := b })) =
          timelineDuration [layer480, layer960])) ∧
    timelineDuration [layer480, layer960] = 960 :=
  ⟨c7_timeline_max [layer480, layer960], by decide⟩

/-- Little-endian decimal digits with explicit fuel; mirrors the digit loop
of the runtime number-to-string conversion used by `layer-${n}`. -/
def decDigits : Nat → Nat → List Nat
  | 0, _ => []
  | fuel + 1, n => if n = 0 then [] else n % 10 :: decDigits fuel (n / 10)

/-- Decimal string of a natural number, as a JS template literal renders it. -/
def natDecimalString (n : Nat) : String :=
  if n = 0 then "0" else ((decDigits n n).reverse.map Nat.digitChar).asString

/-- generateLayerId from looperStore: the id rendered from a counter value,
`layer-${n}`. -/
def layerIdString (n : Nat) : String :=
  "layer-" ++ natDecimalString n

/-- Folding the decimal digits back reconstructs the number. -/
theorem decDigits_foldr (fuel : Nat) :
    ∀ n, n ≤ fuel → (decDigits fuel n).foldr (fun d acc => d + 10 * acc) 0 = n := by
  induction fuel with
  | zero =>
    intro n hn
    have : n = 0 := Nat.le_zero.mp hn
    subst this
    rfl
  | succ fuel ih =>
    intro n hn
    by_cases h0 : n = 0
    · subst h0; simp [decDigits]
    · have hdiv : n / 10 ≤ fuel := by
        have : n / 10 < n := Nat.div_lt_self (Nat.pos_of_ne_zero h0) (by omega)
        omega
      simp only [decDigits, h0, if_false, List.foldr_cons, ih (n / 10) hdiv]
      omega

/-- Every decimal digit is below 10. -/
theorem decDigits_lt (fuel : Nat) : ∀ n, ∀ d ∈ decDigits fuel n, d < 10 := by
  induction fuel with
  | zero => intro n d hd; cases hd
  | succ fuel ih =>
    intro n d hd
    by_cases h0 : n = 0
    · subst h0; simp [decDigits] at hd
    · simp only [decDigits, h0, if_false, List.mem_cons] at hd
      rcases hd with h | h
      · subst h; exact Nat.mod_lt _ (by omega)
      · exact ih (n / 10) d h

/-- Nat.digitChar is injective on digits below 10. -/
theorem digitChar_inj_lt (d1 d2 : Nat) (h1 : d1 < 10) (h2 : d2 < 10)
    (h : Nat.digitChar d1 = Nat.digitChar d2) : d1 = d2 := by
  have H : ∀ a b : Fin 10, Nat.digitChar a.val = Nat.digitChar b.val → a = b := by decide
  exact congrArg Fin.val (H ⟨d1, h1⟩ ⟨d2, h2⟩ h)

/-- Mapping Nat.digitChar over digit lists is injective. -/
theorem map_digitChar_inj :
    ∀ l1 l2 : List Nat, (∀ d ∈ l1, d < 10) → (∀ d ∈ l2, d < 10) →
      l1.map Nat.digitChar = l2.map Nat.digitChar → l1 = l2 := by
  intro l1
  induction l1 with
  | nil =>
    intro l2 _ _ h
    cases l2 with
    | nil => rfl
    | cons y ys => simp at h
  | cons x xs ih =>
    intro l2 hl1 hl2 h
    cases l2 with
    | nil => simp at h
    | cons y ys =>
      simp only [List.map_cons, List.cons.injEq] at h
      have hx := digitChar_inj_lt x y (hl1 x (List.mem_cons_self _ _))
        (hl2 y (List.mem_cons_self _ _)) h.1
      have hxs := ih ys (fun d hd => hl1 d (List.mem_cons_of_mem _ hd))
        (fun d hd => hl2 d (List.mem_cons_of_mem _ hd)) h.2
      rw [hx, hxs]

/-- The id rendering is injective on positive counter values. -/
theorem layerIdString_inj (m n : Nat) (hm : 0 < m) (hn : 0 < n)
    (h : layerIdString m = layerIdString n) : m = n := by
  have hdata : ("layer-" ++ natDecimalString m).data = ("layer-" ++ natDecimalString n).data :=
    congrArg String.data h
  rw [String.data_append, String.data_append] at hdata
  have hs : (natDecimalString m).data = (natDecimalString n).data :=
    List.append_cancel_left hdata
  have hm0 : m ≠ 0 := Nat.pos_iff_ne_zero.mp hm
  have hn0 : n ≠ 0 := Nat.pos_iff_ne_zero.mp hn
  simp only [natDecimalString, hm0, hn0, if_false] at hs
  have hlists : (decDigits m m).reverse.map Nat.digitChar =
      (decDigits n n).reverse.map Nat.digitChar := hs
  have hrev : (decDigits m m).reverse = (decDigits n n).reverse :=
    map_digitChar_inj _ _
      (fun d hd => decDigits_lt m m d (List.mem_reverse.mp hd))
      (fun d hd => decDigits_lt n n d (List.mem_reverse.mp hd)) hlists
  have hdig : decDigits m m = decDigits n n := List.reverse_injective hrev
  have h1 := decDigits_foldr m m le_rfl
  have h2 := decDigits_foldr n n le_rfl
  rw [hdig] at h1
  omega

/-- Operations of the layer collection that touch the id counter. -/
inductive LooperOp where
  | createLayer
  | clearLayers
deriving DecidableEq, Repr

/-- Ids handed out by the recorder-stop path along a sequence of operations:
createLayer pre-increments the module counter and renders `layer-${n}`;
clearAllLayers resets the counter to 0. -/
def runLayerIds (c : Nat) : List LooperOp → List String
  | [] => []
  | LooperOp.createLayer :: ops => layerIdString (c + 1) :: runLayerIds (c + 1) ops
  | LooperOp.clearLayers :: ops => runLayerIds 0 ops

/-- C9 counterexample. Creating a layer, clearing all layers, and creating
another yields the id `layer-1` twice: ids are not unique for the lifetime
of the process. -/
theorem c9_counterexample :
    runLayerIds 0 [LooperOp.createLayer, LooperOp.clearLayers, LooperOp.createLayer] =
      ["layer-1", "layer-1"] ∧
    ¬ (runLayerIds 0
        [LooperOp.createLayer, LooperOp.clearLayers, LooperOp.createLayer]).Nodup := by
  decide

/-- Every id handed out along a clear-free run comes from a counter value
strictly above the starting counter. -/
theorem runLayerIds_mem (ops : List LooperOp) :
    ∀ c, LooperOp.clearLayers ∉ ops →
      ∀ s ∈ runLayerIds c ops, ∃ k, c < k ∧ s = layerIdString k := by
  induction ops with
  | nil => intro c _ s hs; cases hs
  | cons op rest ih =>
    intro c hnc s hs
    cases op with
    | clearLayers => exact absurd (List.mem_cons_self _ _) hnc
    | createLayer =>
      have hrest : LooperOp.clearLayers ∉ rest :=
        fun h => hnc (List.mem_cons_of_mem _ h)
      simp only [runLayerIds, List.mem_cons] at hs
      rcases hs with h | h
      · exact ⟨c + 1, Nat.lt_succ_self c, h⟩
      · rcases ih (c + 1) hrest s h with ⟨k, hk, hsk⟩
        exact ⟨k, by omega, hsk⟩

/-- C9 amended. Along any sequence of layer-collection operations that does
not include clearAllLayers, all ids handed out by the recorder-stop path
are pairwise distinct; clearAllLayers resets the id counter to 0, so after
a session clear previously used ids are handed out again. -/
theorem c9_ids_distinct_without_clear (c : Nat) (ops : List LooperOp)
    (h : LooperOp.clearLayers ∉ ops) : (runLayerIds c ops).Nodup := by
  induction ops generalizing c with
  | nil => exact List.nodup_nil
  | cons op rest ih =>
    cases op with
    | clearLayers => exact absurd (List.mem_cons_self _ _) h
    | createLayer =>
      have hrest : LooperOp.clearLayers ∉ rest :=
        fun hm => h (List.mem_cons_of_mem _ hm)
      refine List.Nodup.cons ?_ (ih (c + 1) hrest)
      intro hmem
      rcases runLayerIds_mem rest (c + 1) hrest _ hmem with ⟨k, hk, hsk⟩
      have : c + 1 = k := layerIdString_inj (c + 1) k (Nat.succ_pos c)
        (by omega) hsk
      omega

/-- Witness for C9 amended: two creations with no clear give distinct ids. -/
theorem c9_witness :
    LooperOp.clearLayers ∉ [LooperOp.createLayer, LooperOp.createLayer] ∧
    (runLayerIds 0 [LooperOp.createLayer, LooperOp.createLayer]).Nodup :=
  ⟨by decide, c9_ids_distinct_without_clear 0 [LooperOp.createLayer, LooperOp.createLayer]
      (by decide)⟩

/-- Stable insertion into a key-sorted list: the new element goes after all
elements whose key is less than or equal to its own, as a stable sort
(the ECMAScript `Array.prototype.sort`) requires. -/
def insertByKey {α β : Type} [LinearOrder β] (key : α → β) (x : α) : List α → List α
  | [] => [x]
  | y :: ys => if key y ≤ key x then y :: insertByKey key x ys else x :: y :: ys

/-- Stable sort by key, modelling `Array.prototype.sort` with the comparator
`(a, b) => key(a) - key(b)`. -/
def sortByKey {α β : Type} [LinearOrder β] (key : α → β) (l : List α) : List α :=
  l.foldl (fun acc x => insertByKey key x acc) []

/-- Insertion produces a permutation. -/
theorem insertByKey_perm {α β : Type} [LinearOrder β] (key : α → β) (x : α) :
    ∀ ys : List α, List.Perm (insertByKey key x ys) (x :: ys) := by
  intro ys
  induction ys with
  | nil => exact List.Perm.refl _
  | cons y ys ih =>
    by_cases h : key y ≤ key x
    · simp only [insertByKey, h, if_true]
      exact List.Perm.trans (List.Perm.cons y ih) (List.Perm.swap x y ys)
    · simp only [insertByKey, h, if_false]
      exact List.Perm.refl _

/-- Sorting produces a permutation of the input. -/
theorem sortByKey_perm {α β : Type} [LinearOrder β] (key : α → β) (l : List α) :
    List.Perm (sortByKey key l) l := by
  suffices h : ∀ (l acc : List α),
      List.Perm (l.foldl (fun acc x => insertByKey key x acc) acc) (acc ++ l) by
    have h0 := h l []
    simpa [sortByKey] using h0
  intro l
  induction l with
  | nil => intro acc; simp
  | cons x xs ih =>
    intro acc
    exact (ih (insertByKey key x acc)).trans
      (((insertByKey_perm key x acc).append_right xs).trans List.perm_middle.symm)

/-- Membership in an insertion. -/
theorem mem_insertByKey {α β : Type} [LinearOrder β] (key : α → β) (x z : α) (ys : List α) :
    z ∈ insertByKey key x ys ↔ z = x ∨ z ∈ ys := by
  rw [(insertByKey_perm key x ys).mem_iff, List.mem_cons]

/-- Insertion preserves key-sortedness. -/
theorem insertByKey_pairwise {α β : Type} [LinearOrder β] (key : α → β) (x : α)
    (ys : List α) (h : List.Pairwise (fun a b => key a ≤ key b) ys) :
    List.Pairwise (fun a b => key a ≤ key b) (insertByKey key x ys) := by
  induction ys with
  | nil => exact List.pairwise_singleton _ x
  | cons y ys ih =>
    rcases List.pairwise_cons.mp h with ⟨hy, hys⟩
    by_cases hle : key y ≤ key x
    · simp only [insertByKey, hle, if_true]
      refine List.pairwise_cons.mpr ⟨?_, ih hys⟩
      intro z hz
      rcases (mem_insertByKey key x z ys).mp hz with hzx | hzys
      · subst hzx; exact hle
      · exact hy z hzys
    · simp only [insertByKey, hle, if_false]
      have hxy : key x ≤ key y := le_of_not_le hle
      refine List.pairwise_cons.mpr ⟨?_, h⟩
      intro z hz
      rcases List.mem_cons.mp hz with hzy | hzys
      · subst hzy; exact hxy
      · exact le_trans hxy (hy z hzys)

/-- The sorted output is ordered by key. -/
theorem sortByKey_pairwise {α β : Type} [LinearOrder β] (key : α → β) (l : List α) :
    List.Pairwise (fun a b => key a ≤ key b) (sortByKey key l) := by
  suffices h : ∀ (l acc : List α), List.Pairwise (fun a b => key a ≤ key b) acc →
      List.Pairwise (fun a b => key a ≤ key b)
        (l.foldl (fun acc x => insertByKey key x acc) acc) by
    exact h l [] List.Pairwise.nil
  intro l
  induction l with
  | nil => intro acc hacc; exact hacc
  | cons x xs ih =>
    intro acc hacc
    exact ih (insertByKey key x acc) (insertByKey_pairwise key x acc hacc)

/-- Inserting into a sorted list puts the new element after all existing
elements of equal key: the filter at the new element's key gains it at the
end. -/
theorem filter_insertByKey {α β : Type} [LinearOrder β] (key : α → β) (x : α) (t : β)
    (ys : List α) (h : List.Pairwise (fun a b => key a ≤ key b) ys) :
    (insertByKey key x ys).filter (fun a => decide (key a = t)) =
      if key x = t then ys.filter (fun a => decide (key a = t)) ++ [x]
      else ys.filter (fun a => decide (key a = t)) := by
  induction ys with
  | nil =>
    by_cases hx : key x = t <;> simp [insertByKey, List.filter, hx]
  | cons y ys ih =>
    rcases List.pairwise_cons.mp h with ⟨hy, hys⟩
    by_cases hle : key y ≤ key x
    · simp only [insertByKey, hle, if_true]
      by_cases hx : key x = t
      · by_cases hyt : key y = t <;>
          simp [List.filter_cons, hyt, hx, ih hys]
      · by_cases hyt : key y = t <;>
          simp [List.filter_cons, hyt, hx, ih hys]
    · simp only [insertByKey, hle, if_false]
      have hxy : key x < key y := lt_of_not_le hle
      by_cases hx : key x = t
      · have hnone : (y :: ys).filter (fun a => decide (key a = t)) = [] := by
          refine List.filter_eq_nil_iff.mpr ?_
          intro a ha
          have hya : key y ≤ key a := by
            rcases List.mem_cons.mp ha with h1 | h1
            · subst h1; exact le_refl _
            · exact hy a h1
          have : key x < key a := lt_of_lt_of_le hxy hya
          simp only [decide_eq_true_eq]
          intro hat
          rw [hat] at this
          exact absurd hx (ne_of_lt this)
        simp [List.filter_cons, hx, hnone]
      · simp [List.filter_cons, hx]

/-- Stability of the sort: elements sharing any key keep their input order. -/
theorem sortByKey_filter {α β : Type} [LinearOrder β] (key : α → β) (l : List α) (t : β) :
    (sortByKey key l).filter (fun a => decide (key a = t)) =
      l.filter (fun a => decide (key a = t)) := by
  suffices h : ∀ (l acc : List α), List.Pairwise (fun a b => key a ≤ key b) acc →
      (l.foldl (fun acc x => insertByKey key x acc) acc).filter
          (fun a => decide (key a = t)) =
        acc.filter (fun a => decide (key a = t)) ++ l.filter (fun a => decide (key a = t)) by
    simpa using h l [] List.Pairwise.nil
  intro l
  induction l with
  | nil => intro acc hacc; simp
  | cons x xs ih =>
    intro acc hacc
    have hstep := ih (insertByKey key x acc) (insertByKey_pairwise key x acc hacc)
    calc ((x :: xs).foldl (fun acc x => insertByKey key x acc) acc).filter
          (fun a => decide (key a = t))
        = (insertByKey key x acc).filter (fun a => decide (key a = t)) ++
            xs.filter (fun a => decide (key a = t)) := hstep
      _ = acc.filter (fun a => decide (key a = t)) ++
            (x :: xs).filter (fun a => decide (key a = t)) := by
          rw [filter_insertByKey key x t acc hacc]
          by_cases hx : key x = t <;> simp [List.filter_cons, hx]

/-- Scheduled event as pushed by LoopPlayer.buildCroppedEvents: time in
seconds (integer multiples of a fixed unit), note, kind, velocity. -/
structure SchedEvent where
  time : Int
  note : String
  type : EvKind
  velocity : Rat
deriving DecidableEq, Repr

/-- Crop-window test of buildCroppedEvents: `cropStart <= time < cropEnd`. -/
def inCropWindow (cropStart cropEnd : Int) (e : MidiEvent) : Bool :=
  decide (cropStart ≤ e.time) && decide (e.time < cropEnd)

/-- Retiming of an in-window event: `Tone.Ticks(time - cropStart).toSeconds()`
with the conversion embedded as multiplication by `spt`. -/
def retimeEvent (cropStart spt : Int) (e : MidiEvent) : SchedEvent :=
  ⟨(e.time - cropStart) * spt, e.note, e.type, e.velocity⟩

/-- The layer's events sorted by time (the `[...].sort((a, b) => a.time -
b.time)` at the head of buildCroppedEvents) and filtered to the crop
window. -/
def croppedWindow (layer : LoopLayer) : List MidiEvent :=
  (sortByKey (fun e : MidiEvent => e.time) layer.events).filter
    (inCropWindow layer.cropStart layer.cropEnd)

/-- The events pushed during the main loop of buildCroppedEvents: every
in-window event, retimed into the loop. -/
def croppedBase (layer : LoopLayer) (spt : Int) : List SchedEvent :=
  (croppedWindow layer).map (retimeEvent layer.cropStart spt)

/-- Lookup in the activeNoteCounts record, 0 when the key is absent
(the `?? 0` in the source). -/
def alistGetD (m : List (String × Int)) (k : String) : Int :=
  match m.find? (fun q => decide (q.1 = k)) with
  | some q => q.2
  | none => 0

/-- Assignment to the activeNoteCounts record: updates the entry in place
when the key exists, otherwise appends it (JS object key insertion). -/
def alistSet (m : List (String × Int)) (k : String) (v : Int) : List (String × Int) :=
  if m.any (fun q => decide (q.1 = k)) then
    m.map (fun q => if q.1 = k then (k, v) else q)
  else m ++ [(k, v)]

/-- One step of the open-note bookkeeping in buildCroppedEvents: a noteOn
increments the pitch's count; a noteOff decrements it only when it is
strictly positive (and writes nothing when the key is absent). -/
def updateCounts (m : List (String × Int)) (e : MidiEvent) : List (String × Int) :=
  if e.type = EvKind.noteOn then alistSet m e.note (alistGetD m e.note + 1)
  else if 0 < alistGetD m e.note then alistSet m e.note (alistGetD m e.note - 1)
  else m

/-- The activeNoteCounts record after the main loop of buildCroppedEvents. -/
def activeNoteCounts (layer : LoopLayer) : List (String × Int) :=
  (croppedWindow layer).foldl updateCounts []

/-- The tick time of the synthesized boundary noteOffs:
`max(0, effectiveDuration - 1)`. -/
def boundaryOffTick (layer : LoopLayer) : Int :=
  max 0 (getEffectiveDuration layer - 1)

/-- The boundary noteOffs synthesized at the end of buildCroppedEvents: one
noteOff per remaining open note of each pitch, at `boundaryOffTick`
converted to seconds, velocity 0. -/
def boundaryNoteOffs (layer : LoopLayer) (spt : Int) : List SchedEvent :=
  (activeNoteCounts layer).flatMap (fun q =>
    if q.2 ≤ 0 then []
    else List.replicate q.2.toNat ⟨boundaryOffTick layer * spt, q.1, EvKind.noteOff, 0⟩)

/-- LoopPlayer.buildCroppedEvents: empty when the effective duration is not
positive; for drums the filtered and retimed events; for melodic layers the
retimed events plus synthesized boundary noteOffs, sorted by time. -/
def buildCroppedEvents (layer : LoopLayer) (isDrums : Bool) (spt : Int) : List SchedEvent :=
  if getEffectiveDuration layer ≤ 0 then []
  else if isDrums then croppedBase layer spt
  else sortByKey (fun e : SchedEvent => e.time)
    (croppedBase layer spt ++ boundaryNoteOffs layer spt)

/-- The scheduledLayers map of LoopPlayer: layer id to the event list of the
registered Tone.Part. -/
structure PlayerState where
  scheduled : List (String × List SchedEvent)
deriving DecidableEq, Repr

/-- LoopPlayer.unscheduleLayer: drop the entry for this layer id. -/
def unscheduleLayer (st : PlayerState) (layerId : String) : PlayerState :=
  ⟨st.scheduled.filter (fun q => !(decide (q.1 = layerId)))⟩

/-- LoopPlayer.scheduleLayer: always unschedule first; return early when the
layer is muted; otherwise register a part holding the cropped events. -/
def scheduleLayer (st : PlayerState) (layer : LoopLayer) (spt : Int) : PlayerState :=
  let cleaned := unscheduleLayer st layer.id
  if layer.muted then cleaned
  else ⟨cleaned.scheduled ++
    [(layer.id, buildCroppedEvents layer (decide (layer.instrumentId = "drums")) spt)]⟩

/-- LoopPlayer.isLayerScheduled: membership in the scheduledLayers map. -/
def isLayerScheduled (st : PlayerState) (layerId : String) : Bool :=
  st.scheduled.any (fun q => decide (q.1 = layerId))

/-- After removing an id from the map, a lookup for that id fails. -/
theorem any_filter_ne (l : List (String × List SchedEvent)) (layerId : String) :
    (l.filter (fun q => !(decide (q.1 = layerId)))).any
      (fun q => decide (q.1 = layerId)) = false := by
  induction l with
  | nil => rfl
  | cons q l ih =>
    by_cases h : q.1 = layerId <;> simp [List.filter_cons, h, List.any_cons, ih]

/-- Filtering the cleaned map for the removed id yields nothing. -/
theorem filter_filter_ne (l : List (String × List SchedEvent)) (layerId : String) :
    (l.filter (fun q => !(decide (q.1 = layerId)))).filter
      (fun q => decide (q.1 = layerId)) = [] := by
  induction l with
  | nil => rfl
  | cons q l ih =>
    by_cases h : q.1 = layerId <;> simp [List.filter_cons, h, ih]

/-- Unmuted layer with empty crop window, as the store can produce via
`setCropPoints 0 0`. -/
def zeroCropLayer : LoopLayer :=
  { scenarioLayer with cropStart := 0, cropEnd := 0 }

/-- Muted variant of the scenario layer. -/
def mutedLayer : LoopLayer :=
  { scenarioLayer with muted := true }

/-- C3 counterexample. An unmuted layer whose effective duration is 0 is
still registered by scheduleLayer: isLayerScheduled reports true, contrary
to the claim that such a layer is left unscheduled. -/
theorem c3_counterexample :
    getEffectiveDuration zeroCropLayer ≤ 0 ∧
    zeroCropLayer.muted = false ∧
    isLayerScheduled (scheduleLayer ⟨[]⟩ zeroCropLayer 1) zeroCropLayer.id = true := by
  decide

/-- C3 amended. scheduleLayer leaves a muted layer unscheduled (no handle for
its id survives the call); an unmuted layer is always registered, and when
its effective duration is not positive the registered part holds an empty
event list, so nothing can fire, but isLayerScheduled still reports true. -/
theorem c3_schedule_spec (st : PlayerState) (layer : LoopLayer) (spt : Int) :
    (layer.muted = true →
      isLayerScheduled (scheduleLayer st layer spt) layer.id = false) ∧
    (layer.muted = false →
      isLayerScheduled (scheduleLayer st layer spt) layer.id = true) ∧
    (layer.muted = false → getEffectiveDuration layer ≤ 0 →
      (scheduleLayer st layer spt).scheduled.filter
          (fun q => decide (q.1 = layer.id)) = [(layer.id, [])]) := by
    refine ⟨?_, ?_, ?_⟩
    · intro hm
      simp only [scheduleLayer, unscheduleLayer, hm, if_true, isLayerScheduled]
      exact any_filter_ne st.scheduled layer.id
    · intro hm
      simp only [scheduleLayer, unscheduleLayer, hm, if_false, isLayerScheduled]
      simp [List.any_append]
    · intro hm hd
      simp only [scheduleLayer, unscheduleLayer, hm, Bool.false_eq_true, if_false]
      rw [List.filter_append, filter_filter_ne]
      simp [buildCroppedEvents, hd]

/-- Witness for C3 amended: the muted scenario layer is left unscheduled,
while the unmuted zero-crop layer gets a handle holding no events. -/
theorem c3_witness :
    isLayerScheduled (scheduleLayer ⟨[]⟩ mutedLayer 1) mutedLayer.id = false ∧
    isLayerScheduled (scheduleLayer ⟨[]⟩ zeroCropLayer 1) zeroCropLayer.id = true ∧
    (scheduleLayer ⟨[]⟩ zeroCropLayer 1).scheduled.filter
      (fun q => decide (q.1 = zeroCropLayer.id)) = [(zeroCropLayer.id, [])] :=
  ⟨(c3_schedule_spec ⟨[]⟩ mutedLayer 1).1 (by decide),
   (c3_schedule_spec ⟨[]⟩ zeroCropLayer 1).2.1 (by decide),
   (c3_schedule_spec ⟨[]⟩ zeroCropLayer 1).2.2 (by decide) (by decide)⟩

/-- Per-pitch view of one bookkeeping step: noteOn adds one, noteOff
subtracts one only while the count is positive, other pitches are ignored. -/
def noteStep (p : String) (c : Int) (e : MidiEvent) : Int :=
  if e.note = p then
    (if e.type = EvKind.noteOn then c + 1 else if 0 < c then c - 1 else c)
  else c

/-- Final guarded open-note count of a pitch over an event sequence. -/
def clampCount (l : List MidiEvent) (p : String) : Int :=
  l.foldl (noteStep p) 0

/-- Number of noteOns of a pitch in an event list. -/
def onCountAt (p : String) (l : List MidiEvent) : Nat :=
  l.countP (fun e => decide (e.note = p ∧ e.type = EvKind.noteOn))

/-- Number of noteOffs of a pitch in an event list. -/
def offCountAt (p : String) (l : List MidiEvent) : Nat :=
  l.countP (fun e => decide (e.note = p ∧ e.type = EvKind.noteOff))


/-- Lookup at a cons whose head key matches. -/
theorem alistGetD_cons_same (q : String × Int) (m : List (String × Int)) (k : String)
    (h : q.1 = k) : alistGetD (q :: m) k = q.2 := by
  unfold alistGetD
  rw [List.find?_cons_of_pos _ (by simpa using h)]

/-- Lookup at a cons whose head key differs. -/
theorem alistGetD_cons_other (q : String × Int) (m : List (String × Int)) (k : String)
    (h : ¬ q.1 = k) : alistGetD (q :: m) k = alistGetD m k := by
  unfold alistGetD
  rw [List.find?_cons_of_neg _ (by simpa using h)]

/-- Assignment when the key is present rewrites entries in place. -/
theorem alistSet_of_any (m : List (String × Int)) (k : String) (v : Int)
    (h : m.any (fun q => decide (q.1 = k)) = true) :
    alistSet m k v = m.map (fun q => if q.1 = k then (k, v) else q) := by
  simp [alistSet, h]

/-- Assignment when the key is absent appends the new entry. -/
theorem alistSet_of_not_any (m : List (String × Int)) (k : String) (v : Int)
    (h : ¬ m.any (fun q => decide (q.1 = k)) = true) :
    alistSet m k v = m ++ [(k, v)] := by
  simp [alistSet, h]

/-- Reading back the key just assigned yields the assigned value. -/
theorem getD_alistSet_same (m : List (String × Int)) (k : String) (v : Int) :
    alistGetD (alistSet m k v) k = v := by
  induction m with
  | nil =>
    rw [alistSet_of_not_any _ _ _ (by simp)]
    exact alistGetD_cons_same _ _ _ rfl
  | cons q m ih =>
    by_cases hq : q.1 = k
    · rw [alistSet_of_any _ _ _ (by simp [List.any_cons, hq])]
      rw [List.map_cons, if_pos hq]
      exact alistGetD_cons_same _ _ _ rfl
    · by_cases ha : m.any (fun q => decide (q.1 = k)) = true
      · rw [alistSet_of_any _ _ _ (by simp [List.any_cons, ha])]
        rw [List.map_cons, if_neg hq, alistGetD_cons_other _ _ _ hq]
        rw [← alistSet_of_any _ _ v ha]
        exact ih
      · rw [alistSet_of_not_any _ _ _ (by simp [List.any_cons, hq, ha])]
        rw [List.cons_append, alistGetD_cons_other _ _ _ hq]
        rw [← alistSet_of_not_any _ _ v ha]
        exact ih

/-- Updating entries keyed `k` does not change the lookup of another key. -/
theorem getD_map_update (m : List (String × Int)) (k k' : String) (v : Int)
    (hne : ¬ k' = k) :
    alistGetD (m.map (fun q => if q.1 = k then (k, v) else q)) k' = alistGetD m k' := by
  induction m with
  | nil => rfl
  | cons q m ih =>
    rw [List.map_cons]
    by_cases hq : q.1 = k
    · rw [if_pos hq]
      have h1 : ¬ (k, v).1 = k' := fun h => hne (h.symm)
      have h2 : ¬ q.1 = k' := by rw [hq]; exact fun h => hne h.symm
      rw [alistGetD_cons_other _ _ _ h1, alistGetD_cons_other _ _ _ h2]
      exact ih
    · rw [if_neg hq]
      by_cases hqk : q.1 = k'
      · rw [alistGetD_cons_same _ _ _ hqk, alistGetD_cons_same _ _ _ hqk]
      · rw [alistGetD_cons_other _ _ _ hqk, alistGetD_cons_other _ _ _ hqk]
        exact ih

/-- Appending an entry with a different key does not change a lookup. -/
theorem getD_append_single_other (m : List (String × Int)) (k k' : String) (v : Int)
    (hne : ¬ k' = k) :
    alistGetD (m ++ [(k, v)]) k' = alistGetD m k' := by
  induction m with
  | nil =>
    rw [List.nil_append]
    exact alistGetD_cons_other _ _ _ (fun h => hne h.symm)
  | cons q m ih =>
    rw [List.cons_append]
    by_cases hqk : q.1 = k'
    · rw [alistGetD_cons_same _ _ _ hqk, alistGetD_cons_same _ _ _ hqk]
    · rw [alistGetD_cons_other _ _ _ hqk, alistGetD_cons_other _ _ _ hqk]
      exact ih

/-- Assigning one key does not change the lookup of another. -/
theorem getD_alistSet_other (m : List (String × Int)) (k k' : String) (v : Int)
    (hne : ¬ k' = k) :
    alistGetD (alistSet m k v) k' = alistGetD m k' := by
  by_cases ha : m.any (fun q => decide (q.1 = k)) = true
  · rw [alistSet_of_any _ _ _ ha]
    exact getD_map_update m k k' v hne
  · rw [alistSet_of_not_any _ _ _ ha]
    exact getD_append_single_other m k k' v hne

/-- One bookkeeping step agrees with the per-pitch step on every lookup. -/
theorem getD_updateCounts (m : List (String × Int)) (e : MidiEvent) (p : String) :
    alistGetD (updateCounts m e) p = noteStep p (alistGetD m p) e := by
  by_cases hp : e.note = p
  · by_cases he : e.type = EvKind.noteOn
    · rw [updateCounts, if_pos he, noteStep, if_pos hp, if_pos he, hp]
      exact getD_alistSet_same m p (alistGetD m p + 1)
    · by_cases hpos : 0 < alistGetD m e.note
      · rw [updateCounts, if_neg he, if_pos hpos, noteStep, if_pos hp, if_neg he,
          if_pos (hp ▸ hpos), hp]
        exact getD_alistSet_same m p (alistGetD m p - 1)
      · rw [updateCounts, if_neg he, if_neg hpos, noteStep, if_pos hp, if_neg he,
          if_neg (hp ▸ hpos)]
  · have hne : ¬ p = e.note := fun h => hp h.symm
    by_cases he : e.type = EvKind.noteOn
    · rw [updateCounts, if_pos he, noteStep, if_neg hp]
      exact getD_alistSet_other m e.note p _ hne
    · by_cases hpos : 0 < alistGetD m e.note
      · rw [updateCounts, if_neg he, if_pos hpos, noteStep, if_neg hp]
        exact getD_alistSet_other m e.note p _ hne
      · rw [updateCounts, if_neg he, if_neg hpos, noteStep, if_neg hp]

/-- The whole bookkeeping loop agrees with the per-pitch fold. -/
theorem getD_foldl_updateCounts (l : List MidiEvent) (p : String) :
    ∀ m : List (String × Int),
      alistGetD (l.foldl updateCounts m) p = l.foldl (noteStep p) (alistGetD m p) := by
  induction l with
  | nil => intro m; rfl
  | cons e l ih =>
    intro m
    simp only [List.foldl_cons]
    rw [ih (updateCounts m e), getD_updateCounts]

/-- The open-note count of a pitch in activeNoteCounts is the guarded fold
over the crop-window events. -/
theorem getD_activeNoteCounts (layer : LoopLayer) (p : String) :
    alistGetD (activeNoteCounts layer) p = clampCount (croppedWindow layer) p := by
  unfold activeNoteCounts clampCount
  exact getD_foldl_updateCounts (croppedWindow layer) p []

/-- Assignment preserves the key list up to appending an absent key. -/
theorem keys_alistSet (m : List (String × Int)) (k : String) (v : Int) :
    (alistSet m k v).map Prod.fst = m.map Prod.fst ∨
    (alistSet m k v).map Prod.fst = m.map Prod.fst ++ [k] ∧ k ∉ m.map Prod.fst := by
  by_cases ha : m.any (fun q => decide (q.1 = k)) = true
  · left
    rw [alistSet_of_any _ _ _ ha, List.map_map]
    apply List.map_congr_left
    intro q _
    by_cases hq : q.1 = k
    · simp [Function.comp, hq]
    · simp [Function.comp, hq]
  · right
    constructor
    · rw [alistSet_of_not_any _ _ _ ha]
      simp
    · intro hmem
      apply ha
      rcases List.mem_map.mp hmem with ⟨q, hqm, hqk⟩
      exact List.any_eq_true.mpr ⟨q, hqm, by simpa using hqk⟩

/-- Assignment preserves distinctness of the record's keys. -/
theorem nodup_keys_alistSet (m : List (String × Int)) (k : String) (v : Int)
    (h : (m.map Prod.fst).Nodup) : ((alistSet m k v).map Prod.fst).Nodup := by
  rcases keys_alistSet m k v with hk | ⟨hk, hnm⟩
  · rw [hk]; exact h
  · rw [hk]
    exact ((List.perm_append_singleton k (m.map Prod.fst)).nodup_iff).mpr
      (List.Nodup.cons hnm h)

/-- The bookkeeping loop keeps the record's keys distinct. -/
theorem nodup_keys_foldl_updateCounts (l : List MidiEvent) :
    ∀ m : List (String × Int), (m.map Prod.fst).Nodup →
      ((l.foldl updateCounts m).map Prod.fst).Nodup := by
  induction l with
  | nil => intro m h; exact h
  | cons e l ih =>
    intro m h
    simp only [List.foldl_cons]
    apply ih
    unfold updateCounts
    by_cases he : e.type = EvKind.noteOn
    · rw [if_pos he]; exact nodup_keys_alistSet _ _ _ h
    · by_cases hpos : 0 < alistGetD m e.note
      · rw [if_neg he, if_pos hpos]; exact nodup_keys_alistSet _ _ _ h
      · rw [if_neg he, if_neg hpos]; exact h

/-- The activeNoteCounts record has pairwise distinct keys. -/
theorem nodup_keys_activeNoteCounts (layer : LoopLayer) :
    ((activeNoteCounts layer).map Prod.fst).Nodup :=
  nodup_keys_foldl_updateCounts (croppedWindow layer) [] List.nodup_nil

/-- A key that is absent from the record reads as 0. -/
theorem getD_eq_zero_of_not_mem (m : List (String × Int)) (k : String)
    (h : k ∉ m.map Prod.fst) : alistGetD m k = 0 := by
  induction m with
  | nil => rfl
  | cons q m ih =>
    have hq : ¬ q.1 = k := fun he => h (by simp [he])
    rw [alistGetD_cons_other _ _ _ hq]
    exact ih (fun hm => h (List.mem_cons_of_mem _ hm))

/-- countP over a replicated element. -/
theorem countP_replicate {α : Type} (n : Nat) (a : α) (pr : α → Bool) :
    (List.replicate n a).countP pr = if pr a then n else 0 := by
  induction n with
  | zero => simp
  | succ k ih =>
    simp only [List.replicate_succ, List.countP_cons, ih]
    by_cases h : pr a = true <;> simp [h]

/-- Counting one pitch's noteOffs in the synthesized boundary block: with
distinct keys, it is exactly the recorded open-note count, clamped at 0. -/
theorem countP_flatMap_boundary (m : List (String × Int)) (p : String) (T : Int)
    (hnd : (m.map Prod.fst).Nodup) :
    (m.flatMap (fun q =>
        if q.2 ≤ 0 then []
        else List.replicate q.2.toNat (⟨T, q.1, EvKind.noteOff, 0⟩ : SchedEvent))).countP
      (fun e => decide (e.note = p)) = (alistGetD m p).toNat := by
  induction m with
  | nil => rfl
  | cons q m ih =>
    have hnd' : (m.map Prod.fst).Nodup := (List.nodup_cons.mp hnd).2
    have hq : q.1 ∉ m.map Prod.fst := (List.nodup_cons.mp hnd).1
    rw [List.flatMap_cons, List.countP_append]
    by_cases hp : q.1 = p
    · have htail : alistGetD m p = 0 := getD_eq_zero_of_not_mem m p (hp ▸ hq)
      have hhead : (if q.2 ≤ 0 then []
          else List.replicate q.2.toNat (⟨T, q.1, EvKind.noteOff, 0⟩ : SchedEvent)).countP
            (fun e => decide (e.note = p)) = q.2.toNat := by
        by_cases hv : q.2 ≤ 0
        · rw [if_pos hv]
          simp [Int.toNat_of_nonpos hv]
        · rw [if_neg hv, countP_replicate]
          simp [hp]
      rw [hhead, ih hnd', htail, alistGetD_cons_same q m p hp]
      simp
    · have hhead : (if q.2 ≤ 0 then []
          else List.replicate q.2.toNat (⟨T, q.1, EvKind.noteOff, 0⟩ : SchedEvent)).countP
            (fun e => decide (e.note = p)) = 0 := by
        by_cases hv : q.2 ≤ 0
        · rw [if_pos hv]; rfl
        · rw [if_neg hv, countP_replicate]
          simp [hp]
      rw [hhead, ih hnd', alistGetD_cons_other q m p hp]
      simp

/-- Per pitch, the synthesized boundary noteOffs number exactly the final
guarded open-note count of the crop window. -/
theorem countP_boundaryNoteOffs (layer : LoopLayer) (spt : Int) (p : String) :
    (boundaryNoteOffs layer spt).countP (fun e => decide (e.note = p)) =
      (clampCount (croppedWindow layer) p).toNat := by
  unfold boundaryNoteOffs
  rw [countP_flatMap_boundary (activeNoteCounts layer) p (boundaryOffTick layer * spt)
    (nodup_keys_activeNoteCounts layer)]
  rw [getD_activeNoteCounts]

/-- Every synthesized boundary event is a velocity-0 noteOff at the boundary
tick time. -/
theorem mem_boundaryNoteOffs (layer : LoopLayer) (spt : Int) (e : SchedEvent)
    (he : e ∈ boundaryNoteOffs layer spt) :
    e.type = EvKind.noteOff ∧ e.velocity = 0 ∧ e.time = boundaryOffTick layer * spt := by
  rcases List.mem_flatMap.mp he with ⟨q, _, hmem⟩
  by_cases hv : q.2 ≤ 0
  · rw [if_pos hv] at hmem
    cases hmem
  · rw [if_neg hv] at hmem
    have := List.eq_of_mem_replicate hmem
    subst this
    exact ⟨rfl, rfl, rfl⟩

/-- The guarded fold never drops below 0. -/
theorem foldl_noteStep_nonneg (l : List MidiEvent) (p : String) :
    ∀ c : Int, 0 ≤ c → 0 ≤ l.foldl (noteStep p) c := by
  induction l with
  | nil => intro c hc; exact hc
  | cons e l ih =>
    intro c hc
    apply ih
    unfold noteStep
    by_cases hp : e.note = p
    · by_cases he : e.type = EvKind.noteOn
      · rw [if_pos hp, if_pos he]; omega
      · by_cases hpos : 0 < c
        · rw [if_pos hp, if_neg he, if_pos hpos]; omega
        · rw [if_pos hp, if_neg he, if_neg hpos]; exact hc
    · rw [if_neg hp]; exact hc

/-- The open-note count of the crop window is never negative. -/
theorem clampCount_nonneg (l : List MidiEvent) (p : String) : 0 ≤ clampCount l p :=
  foldl_noteStep_nonneg l p 0 le_rfl

/-- The guarded fold dominates the unguarded difference of counts. -/
theorem foldl_noteStep_ge (l : List MidiEvent) (p : String) :
    ∀ c : Int, c + (onCountAt p l : Int) - (offCountAt p l : Int) ≤ l.foldl (noteStep p) c := by
  induction l with
  | nil => intro c; simp [onCountAt, offCountAt]
  | cons e l ih =>
    intro c
    have hstep : c + (if e.note = p ∧ e.type = EvKind.noteOn then (1 : Int) else 0) -
        (if e.note = p ∧ e.type = EvKind.noteOff then (1 : Int) else 0) ≤ noteStep p c e := by
      unfold noteStep
      by_cases hp : e.note = p
      · cases he : e.type with
        | noteOn => simp [hp, he]
        | noteOff =>
          by_cases hpos : 0 < c
          · simp [hp, he, hpos]
          · simp [hp, he, hpos]
      · simp [hp]
    have hon : (onCountAt p (e :: l) : Int) =
        (if e.note = p ∧ e.type = EvKind.noteOn then (1 : Int) else 0) + onCountAt p l := by
      unfold onCountAt
      rw [List.countP_cons]
      by_cases h : e.note = p ∧ e.type = EvKind.noteOn
      · simp [h]
        omega
      · simp [h]
    have hoff : (offCountAt p (e :: l) : Int) =
        (if e.note = p ∧ e.type = EvKind.noteOff then (1 : Int) else 0) + offCountAt p l := by
      unfold offCountAt
      rw [List.countP_cons]
      by_cases h : e.note = p ∧ e.type = EvKind.noteOff
      · simp [h]
        omega
      · simp [h]
    calc c + (onCountAt p (e :: l) : Int) - (offCountAt p (e :: l) : Int)
        = (c + (if e.note = p ∧ e.type = EvKind.noteOn then (1 : Int) else 0) -
            (if e.note = p ∧ e.type = EvKind.noteOff then (1 : Int) else 0)) +
            (onCountAt p l : Int) - (offCountAt p l : Int) := by
          rw [hon, hoff]; ring
      _ ≤ noteStep p c e + (onCountAt p l : Int) - (offCountAt p l : Int) := by
          have := hstep; omega
      _ ≤ (e :: l).foldl (noteStep p) c := ih (noteStep p c e)

/-- The open-note count dominates noteOns minus noteOffs. -/
theorem clampCount_ge (l : List MidiEvent) (p : String) :
    (onCountAt p l : Int) - (offCountAt p l : Int) ≤ clampCount l p := by
  have h := foldl_noteStep_ge l p 0
  simpa [clampCount] using h

/-- A pitch with no noteOn in the window keeps a zero count. -/
theorem clampCount_eq_zero_of_no_on (l : List MidiEvent) (p : String) :
    onCountAt p l = 0 → clampCount l p = 0 := by
  unfold clampCount
  induction l with
  | nil => intro h; rfl
  | cons e l ih =>
    intro h
    unfold onCountAt at h
    rw [List.countP_cons] at h
    by_cases hc : e.note = p ∧ e.type = EvKind.noteOn
    · rw [if_pos (by simpa using hc)] at h
      omega
    · rw [if_neg (by simpa using hc)] at h
      have hl : onCountAt p l = 0 := by
        unfold onCountAt
        omega
      have hz : noteStep p 0 e = 0 := by
        unfold noteStep
        by_cases hp : e.note = p
        · have hety : ¬ e.type = EvKind.noteOn := fun ht => hc ⟨hp, ht⟩
          rw [if_pos hp, if_neg hety, if_neg (lt_irrefl 0)]
        · rw [if_neg hp]
      rw [List.foldl_cons, hz]
      exact ih hl

/-- When no noteOff of the pitch precedes its matching noteOn in the window
(every take-front has at least as many noteOns as noteOffs), the guard never
fires and the final count is exactly noteOns minus noteOffs. -/
theorem clampCount_balanced (l : List MidiEvent) (p : String) :
    (∀ n, offCountAt p (l.take n) ≤ onCountAt p (l.take n)) →
    clampCount l p = (onCountAt p l : Int) - (offCountAt p l : Int) := by
  unfold clampCount
  induction l using List.reverseRecOn with
  | nil => intro h; simp [onCountAt, offCountAt]
  | append_singleton l e ih =>
    intro h
    have hl : ∀ n, offCountAt p (l.take n) ≤ onCountAt p (l.take n) := by
      intro n
      rcases le_or_lt n l.length with hn | hn
      · have ht : (l ++ [e]).take n = l.take n := List.take_append_of_le_length hn
        have hx := h n
        rw [ht] at hx
        exact hx
      · rw [List.take_of_length_le (le_of_lt hn)]
        have hx := h l.length
        rw [List.take_append_of_le_length le_rfl, List.take_length] at hx
        exact hx
    have hfull := h (l.length + 1)
    rw [List.take_of_length_le (by simp)] at hfull
    have hone : onCountAt p (l ++ [e]) = onCountAt p l +
        (if e.note = p ∧ e.type = EvKind.noteOn then 1 else 0) := by
      unfold onCountAt
      rw [List.countP_append]
      by_cases hc : e.note = p ∧ e.type = EvKind.noteOn <;>
        simp [List.countP_cons, hc]
    have hoffe : offCountAt p (l ++ [e]) = offCountAt p l +
        (if e.note = p ∧ e.type = EvKind.noteOff then 1 else 0) := by
      unfold offCountAt
      rw [List.countP_append]
      by_cases hc : e.note = p ∧ e.type = EvKind.noteOff <;>
        simp [List.countP_cons, hc]
    rw [List.foldl_append, ih hl]
    simp only [List.foldl_cons, List.foldl_nil]
    by_cases hp : e.note = p
    · cases hety : e.type with
      | noteOn =>
        rw [noteStep, if_pos hp, if_pos hety]
        rw [hone, hoffe]
        simp [hp, hety]
        omega
      | noteOff =>
        have hpos : 0 < (onCountAt p l : Int) - (offCountAt p l : Int) := by
          rw [hone, hoffe] at hfull
          simp [hp, hety] at hfull
          omega
        rw [noteStep, if_pos hp, if_neg (by rw [hety]; intro hx; cases hx), if_pos hpos]
        rw [hone, hoffe]
        simp [hp, hety]
        omega
    · rw [noteStep, if_neg hp]
      rw [hone, hoffe]
      simp [hp]

/-- Melodic layer with two same-pitch noteOns inside the crop window and
both matching noteOffs outside it. -/
def twoDanglingLayer : LoopLayer :=
  { scenarioLayer with
    events := [evOn "C4" 0, evOn "C4" 10, evOff "C4" 100, evOff "C4" 110],
    duration := 200, cropStart := 0, cropEnd := 20 }

/-- Melodic layer with a noteOff inside the window before its pitch's only
noteOn, whose own noteOff lies outside the window. -/
def offFirstLayer : LoopLayer :=
  { scenarioLayer with
    events := [evOff "C4" 5, evOn "C4" 10],
    duration := 200, cropStart := 0, cropEnd := 20 }

/-- Melodic layer with a single dangling noteOn: the scenario layer cropped
to `[0, 20)`, so the noteOff at 400 falls outside. -/
def danglingLayer : LoopLayer :=
  { scenarioLayer with cropEnd := 20 }

/-- Melodic layer whose crop window holds only an unmatched noteOff. -/
def offOnlyLayer : LoopLayer :=
  { scenarioLayer with events := [evOff "C4" 5], cropEnd := 20 }

/-- C1 counterexample. A melodic layer with two noteOns of pitch C4 inside
the crop window and both matching noteOffs outside it gets two synthesized
noteOffs for that pitch, not exactly one. -/
theorem c1_counterexample :
    (boundaryNoteOffs twoDanglingLayer 1).countP (fun e => decide (e.note = "C4")) = 2 ∧
    (buildCroppedEvents twoDanglingLayer false 1).countP
      (fun e => decide (e.note = "C4" ∧ e.type = EvKind.noteOff)) = 2 := by
  decide

/-- C1 amended. For a melodic layer and a pitch whose crop-window events are
prefix-balanced (no noteOff of the pitch precedes its noteOn inside the
window) and which has more noteOns than noteOffs inside the window, the
scheduled cycle contains exactly one synthesized noteOff per dangling
noteOn of that pitch (noteOns minus noteOffs of the window, not exactly one
overall); each synthesized noteOff has velocity 0 and sits at
`effectiveDuration - 1` ticks converted to seconds, strictly before
`effectiveDuration`; the registered event list consists of the retimed
window events plus these synthesized noteOffs. -/
theorem c1_boundary_noteoffs (layer : LoopLayer) (spt : Int) (p : String)
    (hspt : 0 < spt)
    (hbal : ∀ n, offCountAt p ((croppedWindow layer).take n) ≤
      onCountAt p ((croppedWindow layer).take n))
    (hk : 0 < (onCountAt p (croppedWindow layer) : Int) -
      offCountAt p (croppedWindow layer)) :
    ((boundaryNoteOffs layer spt).countP (fun e => decide (e.note = p)) : Int) =
      (onCountAt p (croppedWindow layer) : Int) - offCountAt p (croppedWindow layer) ∧
    (∀ e ∈ boundaryNoteOffs layer spt, e.type = EvKind.noteOff ∧ e.velocity = 0 ∧
      e.time = (getEffectiveDuration layer - 1) * spt) ∧
    (getEffectiveDuration layer - 1) * spt < getEffectiveDuration layer * spt ∧
    List.Perm (buildCroppedEvents layer false spt)
      (croppedBase layer spt ++ boundaryNoteOffs layer spt) := by
  have hone : 0 < onCountAt p (croppedWindow layer) := by omega
  have hmem : ∃ e ∈ croppedWindow layer,
      decide (e.note = p ∧ e.type = EvKind.noteOn) = true :=
    List.countP_pos_iff.mp hone
  have heff : 1 ≤ getEffectiveDuration layer := by
    rcases hmem with ⟨e, hew, _⟩
    have hw := List.mem_filter.mp hew
    have hwin := hw.2
    unfold inCropWindow at hwin
    rw [Bool.and_eq_true, decide_eq_true_eq, decide_eq_true_eq] at hwin
    unfold getEffectiveDuration
    omega
  have htick : boundaryOffTick layer = getEffectiveDuration layer - 1 := by
    unfold boundaryOffTick
    omega
  have hclamp : clampCount (croppedWindow layer) p =
      (onCountAt p (croppedWindow layer) : Int) - offCountAt p (croppedWindow layer) :=
    clampCount_balanced (croppedWindow layer) p hbal
  refine ⟨?_, ?_, ?_, ?_⟩
  · rw [countP_boundaryNoteOffs layer spt p, hclamp]
    omega
  · intro e he
    have hprops := mem_boundaryNoteOffs layer spt e he
    rw [htick] at hprops
    exact hprops
  · apply mul_lt_mul_of_pos_right _ hspt
    omega
  · rw [buildCroppedEvents, if_neg (by omega), if_neg (by simp)]
    exact sortByKey_perm (fun e : SchedEvent => e.time) _

/-- Witness for C1 at the single-dangling layer with `spt = 2`: one
synthesized noteOff for C4 at tick 19 in seconds, before the loop end. -/
theorem c1_witness :
    ((boundaryNoteOffs danglingLayer 2).countP (fun e => decide (e.note = "C4")) : Int) =
      (onCountAt "C4" (croppedWindow danglingLayer) : Int) -
        offCountAt "C4" (croppedWindow danglingLayer) ∧
    (∀ e ∈ boundaryNoteOffs danglingLayer 2, e.type = EvKind.noteOff ∧ e.velocity = 0 ∧
      e.time = (getEffectiveDuration danglingLayer - 1) * 2) ∧
    (getEffectiveDuration danglingLayer - 1) * 2 < getEffectiveDuration danglingLayer * 2 ∧
    List.Perm (buildCroppedEvents danglingLayer false 2)
      (croppedBase danglingLayer 2 ++ boundaryNoteOffs danglingLayer 2) := by
  refine c1_boundary_noteoffs danglingLayer 2 "C4" (by decide) ?_ (by decide)
  intro n
  have hwin : croppedWindow danglingLayer = [evOn "C4" 0] := by decide
  rw [hwin]
  cases n with
  | zero => decide
  | succ m =>
    rw [List.take_succ_cons, List.take_nil]
    decide

/-- C10 counterexample. With a noteOff of C4 inside the window before the
pitch's only noteOn, the code synthesizes one boundary noteOff although
`max(0, noteOns - noteOffs) = max(0, 1 - 1) = 0`. -/
theorem c10_counterexample :
    (boundaryNoteOffs offFirstLayer 1).countP (fun e => decide (e.note = "C4")) = 1 ∧
    max 0 ((onCountAt "C4" (croppedWindow offFirstLayer) : Int) -
      offCountAt "C4" (croppedWindow offFirstLayer)) = 0 := by
  decide

/-- C10 amended. The per-pitch open-note count is never negative (noteOff
decrements are guarded); the number of synthesized boundary noteOffs of a
pitch equals the final guarded count, which is at least noteOns minus
noteOffs of the window but can exceed `max(0, noteOns - noteOffs)` when a
noteOff precedes its pitch's noteOn inside the window; a pitch with no
noteOn inside the window never gets a synthesized noteOff. -/
theorem c10_clamped_counts (layer : LoopLayer) (spt : Int) (p : String) :
    0 ≤ clampCount (croppedWindow layer) p ∧
    (onCountAt p (croppedWindow layer) : Int) - offCountAt p (croppedWindow layer) ≤
      clampCount (croppedWindow layer) p ∧
    (boundaryNoteOffs layer spt).countP (fun e => decide (e.note = p)) =
      (clampCount (croppedWindow layer) p).toNat ∧
    (onCountAt p (croppedWindow layer) = 0 →
      (boundaryNoteOffs layer spt).countP (fun e => decide (e.note = p)) = 0) := by
  refine ⟨clampCount_nonneg _ _, clampCount_ge _ _, countP_boundaryNoteOffs _ _ _, ?_⟩
  intro h
  rw [countP_boundaryNoteOffs layer spt p,
    clampCount_eq_zero_of_no_on (croppedWindow layer) p h]
  rfl

/-- Witness for C10 at the layer whose window holds only an unmatched
noteOff of C4: no synthesized noteOff is produced. -/
theorem c10_witness :
    0 ≤ clampCount (croppedWindow offOnlyLayer) "C4" ∧
    (onCountAt "C4" (croppedWindow offOnlyLayer) : Int) -
        offCountAt "C4" (croppedWindow offOnlyLayer) ≤
      clampCount (croppedWindow offOnlyLayer) "C4" ∧
    (boundaryNoteOffs offOnlyLayer 1).countP (fun e => decide (e.note = "C4")) =
      (clampCount (croppedWindow offOnlyLayer) "C4").toNat ∧
    (boundaryNoteOffs offOnlyLayer 1).countP (fun e => decide (e.note = "C4")) = 0 := by
  have h := c10_clamped_counts offOnlyLayer 1 "C4"
  exact ⟨h.1, h.2.1, h.2.2.1, h.2.2.2 (by decide)⟩

/-- Cell of a GridPattern: active flag and velocity. -/
structure GridCell where
  active : Bool
  velocity : Rat
deriving DecidableEq, Repr

/-- The events one grid cell contributes in convertToMidiEvents: nothing
unless the cell exists, is active and the row has a truthy note; otherwise a
noteOn at `step * stepTicks` and, for melodic mode, a matching noteOff at
`step * stepTicks + stepTicks - 1`. -/
def gridCellEvents (isDrums : Bool) (pattern : List (List GridCell))
    (notes : List String) (st : Int) (s r : Nat) : List MidiEvent :=
  match (pattern[r]?).bind (fun row => row[s]?), notes[r]? with
  | some cell, some n =>
    if cell.active && !(decide (n = "")) then
      ⟨EvKind.noteOn, n, cell.velocity, (s : Int) * st⟩ ::
        (if isDrums then [] else [⟨EvKind.noteOff, n, 0, (s : Int) * st + st - 1⟩])
    else []
  | _, _ => []

/-- The event list pushed by the step/row loops of convertToMidiEvents,
before sorting: steps outermost, rows innermost. -/
def gridEvents (isDrums : Bool) (pattern : List (List GridCell))
    (notes : List String) (stepCount : Nat) (st : Int) : List MidiEvent :=
  (List.range stepCount).flatMap (fun s =>
    (List.range pattern.length).flatMap (fun r =>
      gridCellEvents isDrums pattern notes st s r))

/-- gridStore.convertToMidiEvents: the pushed events sorted stably by time. -/
def convertToMidiEvents (isDrums : Bool) (pattern : List (List GridCell))
    (notes : List String) (stepCount : Nat) (st : Int) : List MidiEvent :=
  sortByKey (fun e : MidiEvent => e.time)
    (gridEvents isDrums pattern notes stepCount st)

/-- Counting in a flatMap is the sum of the per-piece counts. -/
theorem count_flatMap {α β : Type} [DecidableEq β] (l : List α) (f : α → List β) (x : β) :
    (l.flatMap f).count x = (l.map (fun a => (f a).count x)).sum := by
  induction l with
  | nil => rfl
  | cons a l ih =>
    rw [List.flatMap_cons, List.count_append, List.map_cons, List.sum_cons, ih]

/-- A sum over a range where all terms but one vanish. -/
theorem sum_range_single (N s : Nat) (g : Nat → Nat) (hs : s < N)
    (hz : ∀ m, ¬ m = s → g m = 0) : ((List.range N).map g).sum = g s := by
  induction N with
  | zero => omega
  | succ N ih =>
    rw [List.range_succ, List.map_append, List.sum_append]
    by_cases hsN : s = N
    · subst hsN
      have hzero : ((List.range s).map g).sum = 0 := by
        apply List.sum_eq_zero
        intro x hx
        rcases List.mem_map.mp hx with ⟨m, hm, hmx⟩
        have hms : m < s := List.mem_range.mp hm
        rw [← hmx]
        exact hz m (by omega)
      simp [hzero]
    · have hsN' : s < N := by omega
      rw [ih hsN']
      have hN : g N = 0 := hz N (fun h => hsN h.symm)
      simp [hN]

/-- Shape of a cell's contribution: empty, or the noteOn(/noteOff) pair of a
valid, active cell with a truthy note. -/
theorem gridCellEvents_eq (isDrums : Bool) (pattern : List (List GridCell))
    (notes : List String) (st : Int) (s r : Nat) :
    gridCellEvents isDrums pattern notes st s r = [] ∨
    ∃ row cell n, pattern[r]? = some row ∧ row[s]? = some cell ∧ notes[r]? = some n ∧
      cell.active = true ∧ ¬ n = "" ∧
      gridCellEvents isDrums pattern notes st s r =
        ⟨EvKind.noteOn, n, cell.velocity, (s : Int) * st⟩ ::
          (if isDrums then [] else [⟨EvKind.noteOff, n, 0, (s : Int) * st + st - 1⟩]) := by
  unfold gridCellEvents
  cases hb : (pattern[r]?).bind (fun row => row[s]?) with
  | none => exact Or.inl rfl
  | some cell =>
    cases hn : notes[r]? with
    | none => exact Or.inl rfl
    | some n =>
      by_cases ha : cell.active = true
      · by_cases hne : n = ""
        · exact Or.inl (by simp [ha, hne])
        · rcases Option.bind_eq_some.mp hb with ⟨row, hrow, hcell⟩
          exact Or.inr ⟨row, cell, n, hrow, hcell, rfl, ha, hne, by simp [ha, hne]⟩
      · exact Or.inl (by simp [ha])

/-- A cell of another step never contributes the target noteOn. -/
theorem count_cell_on_other_step (isDrums : Bool) (pattern : List (List GridCell))
    (notes : List String) (st : Int) (hst : 1 ≤ st) (s : Nat) (n : String) (vel : Rat)
    (m r' : Nat) (hm : ¬ m = s) :
    (gridCellEvents isDrums pattern notes st m r').count
      ⟨EvKind.noteOn, n, vel, (s : Int) * st⟩ = 0 := by
  rcases gridCellEvents_eq isDrums pattern notes st m r' with hE |
    ⟨row', cell', n', _, _, _, _, _, hE⟩
  · rw [hE]; rfl
  · rw [hE]
    have htime : ¬ (m : Int) * st = (s : Int) * st := by
      intro h
      have hc := mul_right_cancel₀ (by omega : (st : Int) ≠ 0) h
      have : m = s := by exact_mod_cast hc
      exact hm this
    cases isDrums <;> simp [List.count_cons, htime]

/-- A cell of another row never contributes the target noteOn. -/
theorem count_cell_on_other_row (isDrums : Bool) (pattern : List (List GridCell))
    (notes : List String) (st : Int) (s r : Nat) (n : String) (vel : Rat)
    (hnote : notes[r]? = some n)
    (hinj : ∀ i j : Nat, ∀ ni nj : String,
      notes[i]? = some ni → notes[j]? = some nj → ni = nj → i = j)
    (r' : Nat) (hr' : ¬ r' = r) :
    (gridCellEvents isDrums pattern notes st s r').count
      ⟨EvKind.noteOn, n, vel, (s : Int) * st⟩ = 0 := by
  rcases gridCellEvents_eq isDrums pattern notes st s r' with hE |
    ⟨row', cell', n', _, _, hnote', _, _, hE⟩
  · rw [hE]; rfl
  · rw [hE]
    have hn' : ¬ n' = n := fun h => hr' (hinj r' r n' n hnote' hnote h)
    cases isDrums <;> simp [List.count_cons, hn']

/-- The active cell itself contributes the target noteOn exactly once. -/
theorem count_cell_on_self (isDrums : Bool) (pattern : List (List GridCell))
    (notes : List String) (st : Int) (s r : Nat) (row : List GridCell) (cell : GridCell)
    (n : String) (hrow : pattern[r]? = some row) (hcell : row[s]? = some cell)
    (hnote : notes[r]? = some n) (hact : cell.active = true) (hne : ¬ n = "") :
    (gridCellEvents isDrums pattern notes st s r).count
      ⟨EvKind.noteOn, n, cell.velocity, (s : Int) * st⟩ = 1 := by
  have hbind : (pattern[r]?).bind (fun row => row[s]?) = some cell := by
    rw [hrow, Option.some_bind, hcell]
  unfold gridCellEvents
  rw [hbind, hnote]
  cases isDrums <;> simp [hact, hne, List.count_cons]

/-- A cell of another step never contributes the target noteOff. -/
theorem count_cell_off_other_step (isDrums : Bool) (pattern : List (List GridCell))
    (notes : List String) (st : Int) (hst : 1 ≤ st) (s : Nat) (n : String)
    (m r' : Nat) (hm : ¬ m = s) :
    (gridCellEvents isDrums pattern notes st m r').count
      ⟨EvKind.noteOff, n, 0, (s : Int) * st + st - 1⟩ = 0 := by
  rcases gridCellEvents_eq isDrums pattern notes st m r' with hE |
    ⟨row', cell', n', _, _, _, _, _, hE⟩
  · rw [hE]; rfl
  · rw [hE]
    have htime : ¬ (m : Int) * st + st - 1 = (s : Int) * st + st - 1 := by
      intro h
      have h2 : (m : Int) * st = (s : Int) * st := by omega
      have hc := mul_right_cancel₀ (by omega : (st : Int) ≠ 0) h2
      have : m = s := by exact_mod_cast hc
      exact hm this
    cases isDrums <;> simp [List.count_cons, htime]

/-- A cell of another row never contributes the target noteOff. -/
theorem count_cell_off_other_row (isDrums : Bool) (pattern : List (List GridCell))
    (notes : List String) (st : Int) (s r : Nat) (n : String)
    (hnote : notes[r]? = some n)
    (hinj : ∀ i j : Nat, ∀ ni nj : String,
      notes[i]? = some ni → notes[j]? = some nj → ni = nj → i = j)
    (r' : Nat) (hr' : ¬ r' = r) :
    (gridCellEvents isDrums pattern notes st s r').count
      ⟨EvKind.noteOff, n, 0, (s : Int) * st + st - 1⟩ = 0 := by
  rcases gridCellEvents_eq isDrums pattern notes st s r' with hE |
    ⟨row', cell', n', _, _, hnote', _, _, hE⟩
  · rw [hE]; rfl
  · rw [hE]
    have hn' : ¬ n' = n := fun h => hr' (hinj r' r n' n hnote' hnote h)
    cases isDrums <;> simp [List.count_cons, hn']

/-- In melodic mode, the active cell contributes the matching noteOff
exactly once. -/
theorem count_cell_off_self (pattern : List (List GridCell))
    (notes : List String) (st : Int) (s r : Nat) (row : List GridCell) (cell : GridCell)
    (n : String) (hrow : pattern[r]? = some row) (hcell : row[s]? = some cell)
    (hnote : notes[r]? = some n) (hact : cell.active = true) (hne : ¬ n = "") :
    (gridCellEvents false pattern notes st s r).count
      ⟨EvKind.noteOff, n, 0, (s : Int) * st + st - 1⟩ = 1 := by
  have hbind : (pattern[r]?).bind (fun row => row[s]?) = some cell := by
    rw [hrow, Option.some_bind, hcell]
  unfold gridCellEvents
  rw [hbind, hnote]
  simp [hact, hne, List.count_cons]

/-- C8. The grid conversion output is sorted by time ascending; ties keep
insertion order (step-major, then row order, noteOn before its noteOff), as
the stable sort preserves the pushed order at every fixed time; each valid
active cell with a truthy note contributes exactly one noteOn at
`step * stepTicks` (when rows have pairwise distinct notes) and, in melodic
mode, exactly one matching noteOff at `step * stepTicks + stepTicks - 1`;
in drum mode no noteOff is emitted at all.  The conversion is a pure
function of its inputs, hence deterministic. -/
theorem c8_convert_spec (isDrums : Bool) (pattern : List (List GridCell))
    (notes : List String) (stepCount : Nat) (st : Int) (hst : 1 ≤ st)
    (hinj : ∀ i j : Nat, ∀ ni nj : String,
      notes[i]? = some ni → notes[j]? = some nj → ni = nj → i = j) :
    List.Pairwise (fun a b : MidiEvent => a.time ≤ b.time)
      (convertToMidiEvents isDrums pattern notes stepCount st) ∧
    (∀ t : Int, (convertToMidiEvents isDrums pattern notes stepCount st).filter
        (fun e => decide (e.time = t)) =
      (gridEvents isDrums pattern notes stepCount st).filter
        (fun e => decide (e.time = t))) ∧
    (∀ r s : Nat, ∀ row : List GridCell, ∀ cell : GridCell, ∀ n : String,
      pattern[r]? = some row → row[s]? = some cell → cell.active = true →
      notes[r]? = some n → ¬ n = "" → s < stepCount →
      (convertToMidiEvents isDrums pattern notes stepCount st).count
          ⟨EvKind.noteOn, n, cell.velocity, (s : Int) * st⟩ = 1 ∧
      (isDrums = false →
        (convertToMidiEvents isDrums pattern notes stepCount st).count
          ⟨EvKind.noteOff, n, 0, (s : Int) * st + st - 1⟩ = 1)) ∧
    (isDrums = true → ∀ e ∈ convertToMidiEvents isDrums pattern notes stepCount st,
      e.type = EvKind.noteOn) := by
  refine ⟨sortByKey_pairwise _ _, fun t => sortByKey_filter _ _ t, ?_, ?_⟩
  · intro r s row cell n hrow hcell hact hnote hne hs
    have hr : r < pattern.length := (List.getElem?_eq_some.mp hrow).1
    constructor
    · have houter : ∀ m, ¬ m = s →
          ((List.range pattern.length).flatMap
            (fun r' => gridCellEvents isDrums pattern notes st m r')).count
            ⟨EvKind.noteOn, n, cell.velocity, (s : Int) * st⟩ = 0 := by
        intro m hm
        rw [count_flatMap]
        apply List.sum_eq_zero
        intro x hx
        rcases List.mem_map.mp hx with ⟨r', _, hval⟩
        rw [← hval]
        exact count_cell_on_other_step isDrums pattern notes st hst s n cell.velocity m r' hm
      have hinner : ((List.range pattern.length).flatMap
          (fun r' => gridCellEvents isDrums pattern notes st s r')).count
          ⟨EvKind.noteOn, n, cell.velocity, (s : Int) * st⟩ = 1 := by
        rw [count_flatMap, sum_range_single pattern.length r _ hr ?_]
        · exact count_cell_on_self isDrums pattern notes st s r row cell n
            hrow hcell hnote hact hne
        · intro r' hr'
          exact count_cell_on_other_row isDrums pattern notes st s r n cell.velocity
            hnote hinj r' hr'
      calc (convertToMidiEvents isDrums pattern notes stepCount st).count
            ⟨EvKind.noteOn, n, cell.velocity, (s : Int) * st⟩
          = (gridEvents isDrums pattern notes stepCount st).count
            ⟨EvKind.noteOn, n, cell.velocity, (s : Int) * st⟩ :=
            (sortByKey_perm (fun e : MidiEvent => e.time) _).count_eq _
        _ = 1 := by
            rw [gridEvents, count_flatMap, sum_range_single stepCount s _ hs houter]
            exact hinner
    · intro hisd
      subst hisd
      have houter : ∀ m, ¬ m = s →
          ((List.range pattern.length).flatMap
            (fun r' => gridCellEvents false pattern notes st m r')).count
            ⟨EvKind.noteOff, n, 0, (s : Int) * st + st - 1⟩ = 0 := by
        intro m hm
        rw [count_flatMap]
        apply List.sum_eq_zero
        intro x hx
        rcases List.mem_map.mp hx with ⟨r', _, hval⟩
        rw [← hval]
        exact count_cell_off_other_step false pattern notes st hst s n m r' hm
      have hinner : ((List.range pattern.length).flatMap
          (fun r' => gridCellEvents false pattern notes st s r')).count
          ⟨EvKind.noteOff, n, 0, (s : Int) * st + st - 1⟩ = 1 := by
        rw [count_flatMap, sum_range_single pattern.length r _ hr ?_]
        · exact count_cell_off_self pattern notes st s r row cell n
            hrow hcell hnote hact hne
        · intro r' hr'
          exact count_cell_off_other_row false pattern notes st s r n
            hnote hinj r' hr'
      calc (convertToMidiEvents false pattern notes stepCount st).count
            ⟨EvKind.noteOff, n, 0, (s : Int) * st + st - 1⟩
          = (gridEvents false pattern notes stepCount st).count
            ⟨EvKind.noteOff, n, 0, (s : Int) * st + st - 1⟩ :=
            (sortByKey_perm (fun e : MidiEvent => e.time) _).count_eq _
        _ = 1 := by
            rw [gridEvents, count_flatMap, sum_range_single stepCount s _ hs houter]
            exact hinner
  · intro hd e he
    subst hd
    rw [convertToMidiEvents] at he
    have he2 : e ∈ gridEvents true pattern notes stepCount st :=
      ((sortByKey_perm (fun e : MidiEvent => e.time) _).mem_iff).mp he
    rw [gridEvents] at he2
    rcases List.mem_flatMap.mp he2 with ⟨s', _, hin⟩
    rcases List.mem_flatMap.mp hin with ⟨r', _, hcm⟩
    rcases gridCellEvents_eq true pattern notes st s' r' with hE |
      ⟨row', cell', n', _, _, _, _, _, hE⟩
    · rw [hE] at hcm
      cases hcm
    · rw [hE] at hcm
      simp only [if_pos rfl, List.mem_singleton] at hcm
      rcases List.mem_cons.mp hcm with h1 | h1
      · rw [h1]
      · simp at h1

/-- Concrete 2-row, 2-step melodic pattern: row 0 active at step 0, row 1
active at step 1. -/
def demoPattern : List (List GridCell) :=
  [[⟨true, 1⟩, ⟨false, 1⟩], [⟨false, 1⟩, ⟨true, 1⟩]]

/-- Concrete note names for the two rows. -/
def demoNotes : List String := ["C4", "E4"]

/-- The demo notes are pairwise distinct across rows. -/
theorem demoNotes_inj : ∀ i j : Nat, ∀ ni nj : String,
    demoNotes[i]? = some ni → demoNotes[j]? = some nj → ni = nj → i = j := by
  intro i j ni nj hi hj hij
  have hi2 : i < 2 := by
    by_contra hnot
    rw [List.getElem?_eq_none (by simp [demoNotes]; omega)] at hi
    cases hi
  have hj2 : j < 2 := by
    by_contra hnot
    rw [List.getElem?_eq_none (by simp [demoNotes]; omega)] at hj
    cases hj
  interval_cases i <;> interval_cases j <;> simp_all [demoNotes] <;>
    exact absurd (hi.trans hj.symm) (by decide)

/-- Witness for C8 on the demo pattern at sixteen-note resolution 48 ticks:
sortedness, stability at time 0, and exactly one noteOn/noteOff pair for
the active cell (0, 0). -/
theorem c8_witness :
    List.Pairwise (fun a b : MidiEvent => a.time ≤ b.time)
      (convertToMidiEvents false demoPattern demoNotes 2 48) ∧
    (convertToMidiEvents false demoPattern demoNotes 2 48).filter
        (fun e => decide (e.time = 0)) =
      (gridEvents false demoPattern demoNotes 2 48).filter
        (fun e => decide (e.time = 0)) ∧
    (convertToMidiEvents false demoPattern demoNotes 2 48).count
      ⟨EvKind.noteOn, "C4", 1, (0 : Int) * 48⟩ = 1 ∧
    (convertToMidiEvents false demoPattern demoNotes 2 48).count
      ⟨EvKind.noteOff, "C4", 0, (0 : Int) * 48 + 48 - 1⟩ = 1 := by
  have H := c8_convert_spec false demoPattern demoNotes 2 48 (by decide) demoNotes_inj
  have hcell := H.2.2.1 0 0 [⟨true, 1⟩, ⟨false, 1⟩] ⟨true, 1⟩ "C4"
    rfl rfl rfl rfl (by decide) (by decide)
  exact ⟨H.1, H.2.1 0, hcell.1, hcell.2 rfl⟩
